import Mathlib

/-!
# Verification of the placeholder-substitution engine

A shallow embedding of the engine's core source files:

* `PlaceholderParser` (src/src/core/PlaceholderParser.ts): token scanning
  (`findPlaceholders`), the `isPlaceholder` test, and token parsing (`parse`
  with `splitByPipe`, `splitByColon`, `parseTransform`).
* `JsonProcessor` (src/unnamed/part_004): the type-preserving document
  substitutor (`processNode`, `processStringValue`, `resolvePlaceholder`,
  `sortPlaceholdersByPosition`).
* `TextProcessor` (src/unnamed/part_003): the plain-text substitutor.
* `PluginRegistry` (src/unnamed/part_005): plugin/transform lookup with its
  error messages.

Strings are embedded as `List Char`.  JavaScript runtime values flowing
through the substitutor are embedded as the tagged union `Jval`
(null/boolean/number/string/array/object), with JSON numbers modelled as
integers.  Plugins and transforms are external collaborators of the core and
are modelled as records of resolution functions; concrete model plugins used
in witnesses are small deterministic stand-ins for that interface.

Modelling notes:
* `String.prototype.trim` is modelled on the ASCII whitespace characters.
* `Array.prototype.sort` (spec-stable since ES2019) is modelled as a stable
  insertion sort with the source's comparator.
* The `$`-substitution patterns of `String.prototype.replace`/`replaceAll`
  replacement strings are not modelled (no replacement string built by the
  engine is derived from a match).
* Asynchronous resolution is modelled as plain sequential evaluation; the
  document walk awaits every leaf in order, so the `Except` monad captures
  the control flow exactly.
-/

namespace Placeholder

/-- Decimal digits of `n`, most significant first (the fuel argument is an
upper bound on the number of digits; `n` itself always suffices). -/
def natDigitsAux : Nat → Nat → List Char
  | 0, _ => []
  | fuel + 1, n =>
    if n = 0 then [] else natDigitsAux fuel (n / 10) ++ [Char.ofNat (48 + n % 10)]

/-- Decimal representation of a natural number. -/
def natToStr (n : Nat) : List Char :=
  if n = 0 then ['0'] else natDigitsAux n n

/-- Decimal representation of an integer (JS number printing restricted to
integral values). -/
def intToStr : Int → List Char
  | .ofNat m => natToStr m
  | .negSucc m => '-' :: natToStr (m + 1)

/-- ASCII whitespace recognised by the JS `trim` used in the source. -/
def isWsChar (c : Char) : Bool :=
  c = ' ' || c = '\t' || c = '\n' || c = '\r' || c = '\x0b' || c = '\x0c'

/-- Drop trailing whitespace. -/
def trimEnd (s : List Char) : List Char :=
  (s.reverse.dropWhile isWsChar).reverse

/-- JS `String.prototype.trim`. -/
def trim (s : List Char) : List Char :=
  trimEnd (s.dropWhile isWsChar)

/-- Substring test: JS `String.prototype.includes`. -/
def isSubstrOf (pat : List Char) : List Char → Bool
  | [] => pat.isEmpty
  | s@(_ :: rest) => pat.isPrefixOf s || isSubstrOf pat rest

/-- JS `String.prototype.indexOf` helper, tracking the current index. -/
def jsIndexOfAux (pat : List Char) : List Char → Int → Int
  | [], i => if pat.isEmpty then i else -1
  | s@(_ :: rest), i => if pat.isPrefixOf s then i else jsIndexOfAux pat rest (i + 1)

/-- JS `String.prototype.indexOf` (−1 when absent). -/
def jsIndexOf (s pat : List Char) : Int := jsIndexOfAux pat s 0

/-- JS `String.prototype.replace` with a string pattern: replace the first
occurrence only (an empty pattern matches at position 0). -/
def rfAux (pat rep : List Char) : List Char → List Char
  | [] => if pat.isEmpty then rep else []
  | s@(c :: rest) =>
    if pat.isPrefixOf s then rep ++ s.drop pat.length else c :: rfAux pat rep rest

/-- JS `result.replace(pat, rep)` as used by `TextProcessor.process`. -/
def replaceFirstStr (s pat rep : List Char) : List Char := rfAux pat rep s

/-- Fuelled scan for `replaceAll`; with a non-empty pattern every step
consumes at least one character of `s`, so fuel `s.length` is exact
(`replAux_fuel` below). -/
def replAux (pat rep : List Char) : Nat → List Char → List Char
  | _, [] => []
  | 0, s => s
  | fuel + 1, s@(c :: rest) =>
    if pat.isPrefixOf s then rep ++ replAux pat rep fuel (s.drop pat.length)
    else c :: replAux pat rep fuel rest

/-- JS `"abc".replaceAll("", rep) = rep ++ "a" ++ rep ++ "b" ++ ...`. -/
def interleaveRep (rep : List Char) : List Char → List Char
  | [] => rep
  | c :: rest => rep ++ c :: interleaveRep rep rest

/-- JS `String.prototype.replaceAll` with a string pattern: replace all
non-overlapping occurrences left to right. -/
def replaceAllStr (s pat rep : List Char) : List Char :=
  if pat.isEmpty then interleaveRep rep s else replAux pat rep s.length s

/-- JS `String.prototype.split` with a single-character separator. -/
def jsSplit (sep : Char) : List Char → List Char → List (List Char)
  | [], cur => [cur]
  | c :: rest, cur => if c = sep then cur :: jsSplit sep rest [] else jsSplit sep rest (cur ++ [c])

/-! ## Scanner: `PlaceholderParser.findPlaceholders` / `isPlaceholder` -/

/-- The depth-counting scan of `findPlaceholdersRecursive`: left to right,
`{{` increments `depth` (recording the start index on a 0→1 transition and
skipping the second brace), `}}` decrements it (emitting the recorded span
when depth returns to 0 and a start index was recorded).  `depth` may go
negative; `start` persists once set.  Returns the depth-0 spans in scan
order; the recursion into each span's interior is `emitAll` below. -/
def spanLoop (content : List Char) : List Char → Nat → Int → Option Nat → List (List Char)
  | [], _, _, _ => []
  | [_], _, _, _ => []
  | c :: c2 :: rest, i, depth, start =>
    if c = '{' ∧ c2 = '{' then
      spanLoop content rest (i + 2) (depth + 1) (if depth = 0 then some i else start)
    else if c = '}' ∧ c2 = '}' then
      match start with
      | some s =>
        if depth - 1 = 0 then
          ((content.drop s).take (i + 2 - s)) :: spanLoop content rest (i + 2) (depth - 1) (some s)
        else spanLoop content rest (i + 2) (depth - 1) (some s)
      | none => spanLoop content rest (i + 2) (depth - 1) none
    else spanLoop content (c2 :: rest) (i + 1) depth start

/-- The depth-0 spans of `content`, in scan order. -/
def topSpans (content : List Char) : List (List Char) :=
  spanLoop content content 0 0 none

/-- `placeholder.slice(2, -2)`: strip one outer `{{`/`}}` layer. -/
def stripOuter (l : List Char) : List Char := (l.drop 2).take (l.length - 4)

/-- The emission sequence of `findPlaceholdersRecursive`: each depth-0 span
in scan order, immediately followed (depth-first) by the emissions of its
interior.  The fuel only bounds the nesting recursion; `stripOuter` shrinks
every span by four characters, so `content.length + 1` always suffices
(`emitAll_fuel` below). -/
def emitAll : Nat → List Char → List (List Char)
  | 0, _ => []
  | fuel + 1, content =>
    (topSpans content).flatMap (fun ph => ph :: emitAll fuel (stripOuter ph))

/-- First-occurrence deduplication: the JS `Set` accumulation order. -/
def dedupFirst (l : List (List Char)) : List (List Char) :=
  l.foldl (fun acc x => if x ∈ acc then acc else acc ++ [x]) []

/-- `PlaceholderParser.findPlaceholders`. -/
def findPlaceholders (content : List Char) : List (List Char) :=
  dedupFirst (emitAll (content.length + 1) content)

/-- Whether `s` contains the two-character sequence `cc` (used to state
token-freeness: no `{{` when `c = '{'`, no `}}` when `c = '}'`). -/
def hasPair (c : Char) : List Char → Bool
  | [] => false
  | [_] => false
  | a :: b :: rest => (a = c && b = c) || hasPair c (b :: rest)

/-- JS line terminators (not matched by `.` in the `isPlaceholder` regex). -/
def isLineTerm (c : Char) : Bool :=
  c = '\n' || c = '\r' || c = '\u2028' || c = '\u2029'

/-- `PlaceholderParser.isPlaceholder`: the trimmed string matches
`^\x7b\x7b.+\x7d\x7d$`. -/
def isPlaceholder (value : List Char) : Bool :=
  let t := trim value
  decide (5 ≤ t.length) && decide (t.take 2 = ['{', '{'])
    && decide (t.drop (t.length - 2) = ['}', '}'])
    && ((t.drop 2).take (t.length - 4)).all (fun c => !isLineTerm c)

/-! ## Token parser: `PlaceholderParser.parse` -/

/-- `PlaceholderParser.splitByPipe`: split on `|` at brace depth 0; both
characters of a `{{`/`}}` pair are appended and only the first adjusts the
depth (the scan does not skip the second brace here). -/
def splitByPipeAux : List Char → Int → List Char → List (List Char)
  | [], _, cur => if cur.isEmpty then [] else [trim cur]
  | c :: rest, depth, cur =>
    if c = '{' ∧ rest.head? = some '{' then splitByPipeAux rest (depth + 1) (cur ++ [c])
    else if c = '}' ∧ rest.head? = some '}' then splitByPipeAux rest (depth - 1) (cur ++ [c])
    else if c = '|' ∧ depth = 0 then trim cur :: splitByPipeAux rest depth []
    else splitByPipeAux rest depth (cur ++ [c])

def splitByPipe (content : List Char) : List (List Char) :=
  splitByPipeAux content 0 []

/-- `PlaceholderParser.splitByColon`: split on `:` at brace depth 0,
un-escaping `\:` to a literal colon (consuming both characters). -/
def splitByColonAux : List Char → Int → List Char → List (List Char)
  | [], _, cur => if cur.isEmpty then [] else [trim cur]
  | [c], depth, cur =>
    if c = ':' ∧ depth = 0 then trim cur :: splitByColonAux [] depth []
    else splitByColonAux [] depth (cur ++ [c])
  | c :: c2 :: rest, depth, cur =>
    if c = '{' ∧ c2 = '{' then splitByColonAux (c2 :: rest) (depth + 1) (cur ++ [c])
    else if c = '}' ∧ c2 = '}' then splitByColonAux (c2 :: rest) (depth - 1) (cur ++ [c])
    else if c = '\\' ∧ c2 = ':' then splitByColonAux rest depth (cur ++ [':'])
    else if c = ':' ∧ depth = 0 then trim cur :: splitByColonAux (c2 :: rest) depth []
    else splitByColonAux (c2 :: rest) depth (cur ++ [c])

def splitByColon (content : List Char) : List (List Char) :=
  splitByColonAux content 0 []

structure ParsedTransform where
  name : List Char
  params : List (List Char)
  deriving DecidableEq

structure ParsedPlaceholder where
  original : List Char
  module : List Char
  action : List Char
  args : List (List Char)
  transforms : List ParsedTransform
  deriving DecidableEq

/-- `PlaceholderParser.parseTransform`: plain `split(':')`, each part
trimmed; first part is the name, the rest are params. -/
def parseTransform (transformStr : List Char) : ParsedTransform :=
  match (jsSplit ':' transformStr []).map trim with
  | [] => { name := [], params := [] }
  | n :: ps => { name := n, params := ps }

/-- The interior of a (trimmed) token: `trimmed.slice(2, -2)`. -/
def tokenInner (trimmed : List Char) : List Char :=
  (trimmed.drop 2).take (trimmed.length - 4)

/-- The main (pre-pipe) segment of a token's interior. -/
def mainSegment (trimmed : List Char) : List Char :=
  (splitByPipe (tokenInner trimmed)).headD []

/-- `PlaceholderParser.parseMainPart`: colon-split, at least two parts
required, each part trimmed. -/
def parseMainPart (mainPart : List Char) :
    Except (List Char) (List Char × List Char × List (List Char)) :=
  match splitByColon mainPart with
  | m :: a :: args => .ok (trim m, trim a, args.map trim)
  | _ =>
    .error ("Invalid placeholder format. Expected at least module:action, got: ".toList
      ++ mainPart)

/-- `PlaceholderParser.parse`. -/
def parse (placeholder : List Char) : Except (List Char) ParsedPlaceholder :=
  let trimmed := trim placeholder
  if isPlaceholder trimmed then
    match parseMainPart (mainSegment trimmed) with
    | .error e => .error e
    | .ok (m, a, args) =>
      .ok { original := trimmed, module := m, action := a, args := args,
            transforms := (splitByPipe (tokenInner trimmed)).tail.map parseTransform }
  else
    .error ("Invalid placeholder format: ".toList ++ placeholder)

/-! ## Runtime values

`Jval` is the tagged union of JavaScript runtime values that flow through
the substitutor (JSON numbers modelled as integers). -/

inductive Jval where
  | null : Jval
  | bool (b : Bool) : Jval
  | num (n : Int) : Jval
  | str (s : List Char) : Jval
  | arr (elems : List Jval) : Jval
  | obj (fields : List (List Char × Jval)) : Jval

mutual
/-- JS `String(value)` on the values of `Jval` (arrays join their elements
with `,`, mapping `null` elements to the empty string; objects print as
`[object Object]`). -/
def jsToString : Jval → List Char
  | .null => "null".toList
  | .bool true => "true".toList
  | .bool false => "false".toList
  | .num n => intToStr n
  | .str s => s
  | .arr l => jsArrToString l
  | .obj _ => "[object Object]".toList

def jsArrToString : List Jval → List Char
  | [] => []
  | [.null] => []
  | [v] => jsToString v
  | .null :: rest => ',' :: jsArrToString rest
  | v :: rest => jsToString v ++ ',' :: jsArrToString rest
end

mutual
/-- A document value free of `{{` and `}}` sequences in every string leaf
and every object key. -/
def jvalTokenFree : Jval → Bool
  | .null => true
  | .bool _ => true
  | .num _ => true
  | .str s => !hasPair '{' s && !hasPair '}' s
  | .arr l => jvalListTokenFree l
  | .obj fs => jvalFieldsTokenFree fs

def jvalListTokenFree : List Jval → Bool
  | [] => true
  | v :: rest => jvalTokenFree v && jvalListTokenFree rest

def jvalFieldsTokenFree : List (List Char × Jval) → Bool
  | [] => true
  | (k, v) :: rest =>
    (!hasPair '{' k && !hasPair '}' k) && jvalTokenFree v && jvalFieldsTokenFree rest
end

/-! ## Registry, plugins, transforms: `PluginRegistry` -/

/-- The opaque context bag handed to plugins. -/
abbrev Ctx := List (List Char × List Char)

/-- A value-producing plugin (external collaborator; `resolve` receives the
parsed placeholder and the context and yields a typed value or fails). -/
structure Plugin where
  name : List Char
  resolve : ParsedPlaceholder → Ctx → Except (List Char) Jval

/-- A value transform (external collaborator). -/
structure Transform where
  name : List Char
  apply : Jval → List (List Char) → Except (List Char) Jval

/-- `PluginRegistry`: plugins and transforms by name (registration rejects
duplicates, so a first-match association list models the JS `Map`). -/
structure Registry where
  plugins : List Plugin
  transforms : List Transform

def pluginNames (R : Registry) : List (List Char) := R.plugins.map (·.name)

/-- JS `Array.prototype.join(sep)` (on arrays of strings). -/
def joinSep (sep : List Char) : List (List Char) → List Char
  | [] => []
  | [x] => x
  | x :: rest => x ++ sep ++ joinSep sep rest

/-- `available || 'none'` in the lookup error messages. -/
def availOr (names : List (List Char)) : List Char :=
  let joined := joinSep ", ".toList names
  if joined.isEmpty then "none".toList else joined

/-- `PluginRegistry.getPlugin`. -/
def getPlugin (R : Registry) (n : List Char) : Except (List Char) Plugin :=
  match R.plugins.find? (fun p => p.name = n) with
  | some p => .ok p
  | none =>
    .error ("Plugin '".toList ++ n ++ "' not found. Available plugins: ".toList
      ++ availOr (pluginNames R))

/-- `PluginRegistry.getTransform`. -/
def getTransform (R : Registry) (n : List Char) : Except (List Char) Transform :=
  match R.transforms.find? (fun t => t.name = n) with
  | some t => .ok t
  | none =>
    .error ("Transform '".toList ++ n ++ "' not found. Available transforms: ".toList
      ++ availOr (R.transforms.map (·.name)))

/-- Processing options (an empty include/exclude array is still "set", as in
the JS truthiness check). -/
structure ProcessOptions where
  includePlugins : Option (List (List Char)) := none
  excludePlugins : Option (List (List Char)) := none
  context : Ctx := []

/-! ## Resolution pipeline (shared body of
`JsonProcessor.resolvePlaceholder` / `TextProcessor.resolvePlaceholder`) -/

/-- The transform fold of both `resolvePlaceholder`s. -/
def applyTransforms (R : Registry) : List ParsedTransform → Jval → Except (List Char) Jval
  | [], v => .ok v
  | t :: ts, v =>
    match getTransform R t.name with
    | .error e => .error e
    | .ok tr =>
      match tr.apply v t.params with
      | .error e => .error e
      | .ok v' => applyTransforms R ts v'

/-- The shared `try`-block body of both `resolvePlaceholder`s: parse, check
the include list then the exclude list (a filtered module returns the
literal token as a string value), look up the plugin, resolve, fold the
transforms. -/
def resolveBody (R : Registry) (placeholder : List Char) (options : ProcessOptions) :
    Except (List Char) Jval :=
  match parse placeholder with
  | .error e => .error e
  | .ok parsed =>
    if (match options.includePlugins with
        | some inc => decide (parsed.module ∉ inc)
        | none => false) then
      .ok (.str placeholder)
    else if (match options.excludePlugins with
        | some exc => decide (parsed.module ∈ exc)
        | none => false) then
      .ok (.str placeholder)
    else
      match getPlugin R parsed.module with
      | .error e => .error e
      | .ok plugin =>
        match plugin.resolve parsed options.context with
        | .error e => .error e
        | .ok v => applyTransforms R parsed.transforms v

/-- `path.join('.')` of `JsonProcessor.resolvePlaceholder`'s catch clause. -/
def pathJoin (path : List (List Char)) : List Char :=
  joinSep ".".toList path

/-- The catch-clause wrapper of `JsonProcessor.resolvePlaceholder`. -/
def wrapJsonErr (ph : List Char) (path : List (List Char)) (e : List Char) : List Char :=
  "Failed to resolve placeholder \"".toList ++ ph ++ "\" at path \"".toList
    ++ pathJoin path ++ "\": ".toList ++ e

/-- `JsonProcessor.resolvePlaceholder`. -/
def resolvePlaceholderJ (R : Registry) (ph : List Char) (options : ProcessOptions)
    (path : List (List Char)) : Except (List Char) Jval :=
  match resolveBody R ph options with
  | .ok v => .ok v
  | .error e => .error (wrapJsonErr ph path e)

/-- The catch-clause wrapper of `TextProcessor.resolvePlaceholder`. -/
def wrapTextErr (ph : List Char) (e : List Char) : List Char :=
  "Failed to resolve placeholder \"".toList ++ ph ++ "\": ".toList ++ e

/-- `TextProcessor.resolvePlaceholder` (always stringifies; the filtered
branch returns the literal token, which stringifies to itself). -/
def resolvePlaceholderT (R : Registry) (ph : List Char) (options : ProcessOptions) :
    Except (List Char) (List Char) :=
  match resolveBody R ph options with
  | .ok v => .ok (jsToString v)
  | .error e => .error (wrapTextErr ph e)

/-! ## The bounded fixed-point loop shared by both processors -/

/-- `k` unconditioned passes of the loop body (Kleisli iteration); the
`stop` test mirrors the loop's `break` on an empty token set. -/
def kpasses {α : Type} (stop : α → Bool) (p : α → Except (List Char) α) :
    Nat → α → Except (List Char) α
  | 0, st => .ok st
  | n + 1, st =>
    if stop st then kpasses stop p n st
    else
      match p st with
      | .error e => .error e
      | .ok st' => kpasses stop p n st'

/-- The `while (result !== previousResult && iterations < maxIterations)`
loop of `JsonProcessor.processStringValue` / `TextProcessor.process`, with
the in-loop `break` on an empty token set (`stop`) and the loop body `p`;
`view` projects the working string compared against `previousResult`. -/
def iterLoop {α : Type} (stop : α → Bool) (p : α → Except (List Char) α)
    (view : α → List Char) : Nat → α → List Char → Except (List Char) α
  | 0, st, _ => .ok st
  | fuel + 1, st, prev =>
    if view st = prev then .ok st
    else if stop st then .ok st
    else
      match p st with
      | .error e => .error e
      | .ok st' => iterLoop stop p view fuel st' (view st)

/-! ## `JsonProcessor` -/

/-- The comparator of `JsonProcessor.sortPlaceholdersByPosition` on the
(start, end) index pairs: a range nested inside another sorts first,
otherwise by start position. -/
def phCmp (content : List Char) (a b : List Char) : Int :=
  let sa := jsIndexOf content a
  let ea := sa + (a.length : Int)
  let sb := jsIndexOf content b
  let eb := sb + (b.length : Int)
  if sa ≥ sb ∧ ea ≤ eb then -1
  else if sb ≥ sa ∧ eb ≤ ea then 1
  else sa - sb

/-- Stable insertion of `x` after all list entries comparing `≤ 0` to it. -/
def insertCmp (cmp : List Char → List Char → Int) (x : List Char) :
    List (List Char) → List (List Char)
  | [] => [x]
  | y :: ys => if cmp y x ≤ 0 then y :: insertCmp cmp x ys else x :: y :: ys

/-- `Array.prototype.sort(cmp)` modelled as a stable insertion sort. -/
def sortByCmp (cmp : List Char → List Char → Int) (l : List (List Char)) :
    List (List Char) :=
  l.foldl (fun acc x => insertCmp cmp x acc) []

/-- `JsonProcessor.sortPlaceholdersByPosition`. -/
def sortPlaceholdersByPosition (content : List Char) (phs : List (List Char)) :
    List (List Char) :=
  sortByCmp (phCmp content) phs

/-- The `for (const placeholder of sorted)` body of the non-pure branch of
`processStringValue`: skip tokens that contain another currently-found
token; otherwise resolve, capture the typed value when the original string
was a pure placeholder and exactly one token is currently present, and
replace all occurrences with the stringified value. -/
def passFold (R : Registry) (options : ProcessOptions) (path : List (List Char))
    (isPure : Bool) (cur : List (List Char)) :
    List (List Char) → List Char → Jval → Except (List Char) (List Char × Jval)
  | [], result, lastV => .ok (result, lastV)
  | ph :: rest, result, lastV =>
    if cur.any (fun other => other ≠ ph && isSubstrOf other ph) then
      passFold R options path isPure cur rest result lastV
    else
      match resolvePlaceholderJ R ph options path with
      | .error e => .error e
      | .ok v =>
        let lastV' := if isPure && cur.length = 1 then v else lastV
        passFold R options path isPure cur rest (replaceAllStr result ph (jsToString v)) lastV'

/-- One pass of `processStringValue`'s loop: find the current tokens, sort
innermost-first, then run the replacement fold. -/
def jsonPass (R : Registry) (options : ProcessOptions) (path : List (List Char))
    (isPure : Bool) (st : List Char × Jval) : Except (List Char) (List Char × Jval) :=
  let cur := findPlaceholders st.1
  passFold R options path isPure cur (sortPlaceholdersByPosition st.1 cur) st.1 st.2

/-- The loop's `break` condition: no tokens in the working string. -/
def jsonStop (st : List Char × Jval) : Bool := (findPlaceholders st.1).isEmpty

/-- `JsonProcessor.processStringValue`.  `lastResolvedValue` starts as JS
`null` and is compared against `null` afterwards, so it is carried as a
`Jval` initialised to `.null`. -/
def processStringValue (R : Registry) (options : ProcessOptions) (value : List Char)
    (path : List (List Char)) : Except (List Char) Jval :=
  let placeholders := findPlaceholders value
  if placeholders.length = 0 then .ok (.str value)
  else
    let isPure := isPlaceholder value
    if isPure && placeholders.length = 1 then resolvePlaceholderJ R value options path
    else
      match iterLoop jsonStop (jsonPass R options path isPure) Prod.fst 10
          (value, Jval.null) [] with
      | .error e => .error e
      | .ok (result, lastV) =>
        if isPure then
          match lastV with
          | .null =>
            if isPlaceholder result then resolvePlaceholderJ R result options path
            else .ok (.str result)
          | v => .ok v
        else .ok (.str result)

/-- The `[i]` path component for array elements. -/
def idxPath (i : Nat) : List Char := '[' :: natToStr i ++ [']']

mutual
/-- `JsonProcessor.processNode`: the recursive tree walk (arrays in index
order, objects in key order, strings via `processStringValue`, other
primitives unchanged). -/
def processNode (R : Registry) (options : ProcessOptions) (node : Jval)
    (path : List (List Char)) : Except (List Char) Jval :=
  match node with
  | .null => .ok .null
  | .bool b => .ok (.bool b)
  | .num n => .ok (.num n)
  | .str s => processStringValue R options s path
  | .arr l =>
    match processNodeArr R options l path 0 with
    | .error e => .error e
    | .ok l' => .ok (.arr l')
  | .obj fs =>
    match processNodeObj R options fs path with
    | .error e => .error e
    | .ok fs' => .ok (.obj fs')

def processNodeArr (R : Registry) (options : ProcessOptions) (l : List Jval)
    (path : List (List Char)) (i : Nat) : Except (List Char) (List Jval) :=
  match l with
  | [] => .ok []
  | v :: rest =>
    match processNode R options v (path ++ [idxPath i]) with
    | .error e => .error e
    | .ok v' =>
      match processNodeArr R options rest path (i + 1) with
      | .error e => .error e
      | .ok rest' => .ok (v' :: rest')

def processNodeObj (R : Registry) (options : ProcessOptions)
    (fs : List (List Char × Jval)) (path : List (List Char)) :
    Except (List Char) (List (List Char × Jval)) :=
  match fs with
  | [] => .ok []
  | (k, v) :: rest =>
    match processNode R options v (path ++ [k]) with
    | .error e => .error e
    | .ok v' =>
      match processNodeObj R options rest path with
      | .error e => .error e
      | .ok rest' => .ok ((k, v') :: rest')
end

/-- `JsonProcessor.process` at the document-tree level (`JSON.parse` /
`JSON.stringify` round the walk with an empty starting path). -/
def jsonProcess (R : Registry) (options : ProcessOptions) (ast : Jval) :
    Except (List Char) Jval :=
  processNode R options ast []

/-! ## `TextProcessor` -/

/-- The `for (const placeholder of placeholders)` body of
`TextProcessor.process`: resolve each found token in discovery order and
replace its **first** occurrence (`String.prototype.replace`). -/
def textFold (R : Registry) (options : ProcessOptions) :
    List (List Char) → List Char → Except (List Char) (List Char)
  | [], result => .ok result
  | ph :: rest, result =>
    match resolvePlaceholderT R ph options with
    | .error e => .error e
    | .ok resolved => textFold R options rest (replaceFirstStr result ph resolved)

/-- One pass of `TextProcessor.process`'s loop. -/
def textPass (R : Registry) (options : ProcessOptions) (st : List Char) :
    Except (List Char) (List Char) :=
  textFold R options (findPlaceholders st) st

/-- The text loop's `break` condition. -/
def textStop (st : List Char) : Bool := (findPlaceholders st).isEmpty

/-- `TextProcessor.process`. -/
def textProcess (R : Registry) (options : ProcessOptions) (text : List Char) :
    Except (List Char) (List Char) :=
  iterLoop textStop (textPass R options) id 10 text []

/-! ## Model plugins

Plugins are external collaborators consumed through the
`resolve(parsedPlaceholder, context) -> TypedValue` contract; these small
deterministic instances stand in for that interface in concrete runs. -/

def digitsToNat (s : List Char) : Nat :=
  s.foldl (fun n c => n * 10 + (c.toNat - 48)) 0

/-- Model `gen` plugin: `number` yields a number, `string` a string. -/
def genPlugin : Plugin where
  name := "gen".toList
  resolve := fun p _ =>
    if p.action = "number".toList then .ok (.num (digitsToNat (p.args.headD [])))
    else if p.action = "string".toList then .ok (.str (p.args.headD []))
    else .error "gen: unknown action".toList

/-- Model `time` plugin: `format` yields a string determined by its args. -/
def timePlugin : Plugin where
  name := "time".toList
  resolve := fun p _ =>
    if p.action = "format".toList then
      .ok (.str ("T(".toList ++ joinSep ",".toList p.args ++ ")".toList))
    else .error "time: unknown action".toList

/-- Model plugin that oscillates between two tokens, keeping the
substitution loop from ever reaching a fixed point. -/
def cycPlugin : Plugin where
  name := "a".toList
  resolve := fun p _ =>
    if p.args.headD [] = "1".toList then .ok (.str "{{a:b:2}}".toList)
    else .ok (.str "{{a:b:1}}".toList)

/-- Model plugin resolving every `a:b` token to the single letter `x`. -/
def constPlugin : Plugin where
  name := "a".toList
  resolve := fun _ _ => .ok (.str "x".toList)

/-- Model plugin emitting token fragments: action `b` yields the string
`{{n`, any other action the string `m}}`. -/
def fragPlugin : Plugin where
  name := "a".toList
  resolve := fun p _ =>
    if p.action = "b".toList then .ok (.str "\x7b\x7bn".toList)
    else .ok (.str "m\x7d\x7d".toList)

/-- Model plugin for module `n`, resolving every token to the number 7. -/
def numPlugin : Plugin where
  name := "n".toList
  resolve := fun _ _ => .ok (.num 7)

def Rfrag : Registry := ⟨[fragPlugin, numPlugin], []⟩

def Rgen : Registry := ⟨[genPlugin, timePlugin], []⟩
def Rcyc : Registry := ⟨[cycPlugin], []⟩
def Rconst : Registry := ⟨[constPlugin], []⟩
def optsNone : ProcessOptions := {}

/-! ## Helper lemmas -/

theorem isSubstrOf_iff (pat s : List Char) :
    isSubstrOf pat s = true ↔ ∃ a b, s = a ++ pat ++ b := by
  induction s with
  | nil =>
    simp only [isSubstrOf, List.isEmpty_iff]
    constructor
    · rintro rfl; exact ⟨[], [], rfl⟩
    · rintro ⟨a, b, hab⟩
      rcases List.append_eq_nil.1 hab.symm with ⟨h1, h2⟩
      exact (List.append_eq_nil.1 h1).2
  | cons c rest ih =>
    simp only [isSubstrOf, Bool.or_eq_true, List.isPrefixOf_iff_prefix, ih]
    constructor
    · rintro (⟨t, ht⟩ | ⟨a, b, rfl⟩)
      · exact ⟨[], t, by simp [← ht]⟩
      · exact ⟨c :: a, b, rfl⟩
    · rintro ⟨a, b, hab⟩
      cases a with
      | nil => exact Or.inl ⟨b, by simpa using hab.symm⟩
      | cons a0 arest =>
        simp only [List.cons_append, List.cons.injEq] at hab
        exact Or.inr ⟨arest, b, hab.2⟩

theorem isSubstrOf_of_within (pat s a b : List Char) (h : isSubstrOf pat s = true) :
    isSubstrOf pat (a ++ s ++ b) = true := by
  rcases (isSubstrOf_iff pat s).1 h with ⟨x, y, rfl⟩
  exact (isSubstrOf_iff pat _).2 ⟨a ++ x, y ++ b, by simp⟩

theorem isSubstrOf_self_within (pat a b : List Char) :
    isSubstrOf pat (a ++ pat ++ b) = true :=
  (isSubstrOf_iff pat _).2 ⟨a, b, rfl⟩

theorem mem_substr_joinSep (sep : List Char) (n : List Char) (names : List (List Char))
    (h : n ∈ names) : isSubstrOf n (joinSep sep names) = true := by
  induction names with
  | nil => cases h
  | cons x rest ih =>
    cases rest with
    | nil =>
      rcases List.mem_singleton.1 h with rfl
      exact (isSubstrOf_iff n n).2 ⟨[], [], by simp⟩
    | cons y rrest =>
      rcases List.mem_cons.1 h with rfl | hmem
      · exact (isSubstrOf_iff n _).2 ⟨[], sep ++ joinSep sep (y :: rrest), by simp [joinSep]⟩
      · have := ih hmem
        rcases (isSubstrOf_iff n _).1 this with ⟨a, b, hab⟩
        exact (isSubstrOf_iff n _).2 ⟨x ++ sep ++ a, b, by simp [joinSep, hab]⟩

theorem dropWhile_idem {α : Type} (p : α → Bool) (l : List α) :
    (l.dropWhile p).dropWhile p = l.dropWhile p := by
  induction l with
  | nil => rfl
  | cons c rest ih =>
    by_cases h : p c
    · simp [List.dropWhile_cons, h, ih]
    · simp [List.dropWhile_cons, h]

theorem exists_append_dropWhile {α : Type} (p : α → Bool) (l : List α) :
    ∃ t, t ++ l.dropWhile p = l := by
  induction l with
  | nil => exact ⟨[], rfl⟩
  | cons c rest ih =>
    by_cases h : p c
    · rcases ih with ⟨t, ht⟩
      exact ⟨c :: t, by simp [List.dropWhile_cons, h, ht]⟩
    · exact ⟨[], by simp [List.dropWhile_cons, h]⟩

theorem dropWhile_self_of_append {α : Type} (p : α → Bool) (a b : List α)
    (h : (a ++ b).dropWhile p = a ++ b) : a.dropWhile p = a := by
  induction a with
  | nil => rfl
  | cons c arest ih =>
    by_cases hc : p c
    · exfalso
      rw [List.cons_append, List.dropWhile_cons_of_pos hc] at h
      have hlen := congrArg List.length h
      have hle : ((arest ++ b).dropWhile p).length ≤ (arest ++ b).length :=
        (List.dropWhile_sublist _).length_le
      rw [List.length_cons] at hlen
      omega
    · rw [List.dropWhile_cons_of_neg hc]

theorem trimEnd_is_prefix (s : List Char) : ∃ u, s = trimEnd s ++ u := by
  rcases exists_append_dropWhile isWsChar s.reverse with ⟨t, ht⟩
  refine ⟨t.reverse, ?_⟩
  have := congrArg List.reverse ht
  simpa [trimEnd] using this.symm

theorem trimEnd_idem (s : List Char) : trimEnd (trimEnd s) = trimEnd s := by
  unfold trimEnd
  rw [List.reverse_reverse, dropWhile_idem]

theorem trim_idem (s : List Char) : trim (trim s) = trim s := by
  have hx : (s.dropWhile isWsChar).dropWhile isWsChar = s.dropWhile isWsChar :=
    dropWhile_idem _ _
  rcases trimEnd_is_prefix (s.dropWhile isWsChar) with ⟨u, hu⟩
  have hdw : (trimEnd (s.dropWhile isWsChar)).dropWhile isWsChar
      = trimEnd (s.dropWhile isWsChar) := by
    apply dropWhile_self_of_append isWsChar _ u
    rw [← hu]
    exact hx
  show trim (trimEnd (s.dropWhile isWsChar)) = _
  unfold trim
  rw [hdw, trimEnd_idem]

/-- The fuel of `replAux` is irrelevant from `s.length` up, so
`replaceAllStr` computes the fuel-free left-to-right replacement. -/
theorem replAux_fuel (pat rep : List Char) (hpat : pat ≠ []) :
    ∀ (n : Nat) (s : List Char) (f g : Nat), s.length = n →
      n ≤ f → n ≤ g → replAux pat rep f s = replAux pat rep g s := by
  intro n
  induction n using Nat.strong_induction_on with
  | _ n ih =>
    intro s f g hlen hf hg
    cases s with
    | nil => cases f <;> cases g <;> rfl
    | cons c rest =>
      subst hlen
      rcases f with _ | f'
      · simp at hf
      rcases g with _ | g'
      · simp at hg
      have hplen : 1 ≤ pat.length := by
        cases pat with
        | nil => exact absurd rfl hpat
        | cons p ps => simp
      simp only [replAux]
      by_cases hpre : pat.isPrefixOf (c :: rest)
      · rw [if_pos hpre, if_pos hpre]
        have hd : ((c :: rest).drop pat.length).length = (c :: rest).length - pat.length := by
          simp
        congr 1
        exact ih ((c :: rest).length - pat.length)
          (by simp at hd ⊢; omega) _ f' g' hd
          (by simp at hf ⊢; omega) (by simp at hg ⊢; omega)
      · rw [if_neg hpre, if_neg hpre]
        congr 1
        exact ih rest.length (by simp) rest f' g' rfl
          (by simp at hf; omega) (by simp at hg; omega)

/-- Every span the scanner emits is a contiguous slice of the content. -/
theorem spanLoop_mem_slice (content : List Char) :
    ∀ (rem : List Char) (i : Nat) (depth : Int) (start : Option Nat)
      (ph : List Char), ph ∈ spanLoop content rem i depth start →
      ∃ s k, ph = (content.drop s).take k := by
  intro rem i depth start
  induction rem, i, depth, start using spanLoop.induct content with
  | case1 =>
    intro ph hph
    cases hph
  | case2 =>
    intro ph hph
    cases hph
  | case3 c c2 rest i depth start h ih =>
    intro ph hph
    simp only [spanLoop] at hph
    rw [if_pos h] at hph
    exact ih ph hph
  | case4 c c2 rest i depth hno hyes sv hdep ih =>
    intro ph hph
    simp only [spanLoop] at hph
    rw [if_neg hno, if_pos hyes, if_pos hdep] at hph
    rcases List.mem_cons.1 hph with rfl | hmem
    · exact ⟨sv, i + 2 - sv, rfl⟩
    · exact ih ph hmem
  | case5 c c2 rest i depth hno hyes sv hdep ih =>
    intro ph hph
    simp only [spanLoop] at hph
    rw [if_neg hno, if_pos hyes, if_neg hdep] at hph
    exact ih ph hph
  | case6 c c2 rest i depth hno hyes ih =>
    intro ph hph
    simp only [spanLoop] at hph
    rw [if_neg hno, if_pos hyes] at hph
    exact ih ph hph
  | case7 c c2 rest i depth start hno hno2 ih =>
    intro ph hph
    simp only [spanLoop] at hph
    rw [if_neg hno, if_neg hno2] at hph
    exact ih ph hph

theorem topSpans_length_le (content ph : List Char) (h : ph ∈ topSpans content) :
    ph.length ≤ content.length := by
  rcases spanLoop_mem_slice content content 0 0 none ph h with ⟨s, k, rfl⟩
  calc ((content.drop s).take k).length ≤ (content.drop s).length :=
        by rw [List.length_take]; omega
    _ ≤ content.length := by rw [List.length_drop]; omega

/-- The fuel of `emitAll` is irrelevant from `content.length + 1` up:
`stripOuter` shortens every span strictly, so the nesting recursion is
bounded by the length. -/
theorem emitAll_fuel :
    ∀ (n : Nat) (content : List Char) (f g : Nat), content.length = n →
      n < f → n < g → emitAll f content = emitAll g content := by
  have hflat : ∀ (F G : List Char → List (List Char)) (l : List (List Char)),
      (∀ ph ∈ l, F ph = G ph) → l.flatMap F = l.flatMap G := by
    intro F G l
    induction l with
    | nil => intro _; rfl
    | cons x rest ih =>
      intro h
      simp only [List.flatMap_cons]
      rw [h x (List.mem_cons_self x rest), ih (fun ph hph => h ph (List.mem_cons_of_mem x hph))]
  intro n
  induction n using Nat.strong_induction_on with
  | _ n ih =>
    intro content f g hlen hf hg
    rcases f with _ | f'
    · omega
    rcases g with _ | g'
    · omega
    cases hc : content with
    | nil =>
      simp [emitAll, topSpans, spanLoop]
    | cons c0 crest =>
      rw [← hc]
      simp only [emitAll]
      apply hflat
      intro ph hph
      have hple : ph.length ≤ content.length := topSpans_length_le content ph hph
      have hstrip : (stripOuter ph).length < content.length := by
        have hpos : 1 ≤ content.length := by rw [hc]; simp
        unfold stripOuter
        rw [List.length_take, List.length_drop]
        omega
      rw [ih (stripOuter ph).length (by omega) _ f' g' rfl (by omega) (by omega)]

/-- The pure-placeholder fast path of `processStringValue`: one token that
is the whole (trimmed) string resolves directly, preserving its type. -/
theorem processStringValue_pure (R : Registry) (options : ProcessOptions)
    (path : List (List Char)) (s : List Char)
    (h1 : isPlaceholder s = true) (h2 : (findPlaceholders s).length = 1) :
    processStringValue R options s path = resolvePlaceholderJ R s options path := by
  unfold processStringValue
  simp only [h1, h2]
  norm_num

/-- In the non-pure branch a successful `processStringValue` result is
always a string value. -/
theorem processStringValue_not_pure_str (R : Registry) (options : ProcessOptions)
    (path : List (List Char)) (s : List Char)
    (h1 : isPlaceholder s = false) (hne : findPlaceholders s ≠ []) :
    ∀ v, processStringValue R options s path = .ok v → ∃ t, v = .str t := by
  intro v hv
  unfold processStringValue at hv
  have h0 : ¬((findPlaceholders s).length = 0) := by
    simpa [List.length_eq_zero] using hne
  simp only [h1, h0, if_false, Bool.false_and] at hv
  rcases he : iterLoop jsonStop (jsonPass R options path (isPlaceholder s)) Prod.fst 10
      (s, Jval.null) [] with e | ⟨r, lv⟩ <;> rw [h1] at he <;> rw [he] at hv
  · cases hv
  · simp only [Bool.false_eq_true, if_false] at hv
    injection hv with h
    exact ⟨r, h.symm⟩

/-- `processNode` on a single-field object forwards the field's leaf result. -/
theorem processNode_singleton_obj (R : Registry) (options : ProcessOptions)
    (k s : List Char) (v : Jval)
    (hres : processStringValue R options s [k] = .ok v) :
    processNode R options (.obj [(k, .str s)]) [] = .ok (.obj [(k, v)]) := by
  unfold processNode processNodeObj processNode
  rw [List.nil_append, hres]
  rfl

/-- `processNode` on a single-field object forwards the field's failure. -/
theorem processNode_singleton_obj_err (R : Registry) (options : ProcessOptions)
    (k s : List Char) (e : List Char)
    (hres : processStringValue R options s [k] = .error e) :
    processNode R options (.obj [(k, .str s)]) [] = .error e := by
  unfold processNode processNodeObj processNode
  rw [List.nil_append, hres]

/-! ## Claims -/

/-- C10: an unmatched `\x7d\x7d` before a balanced token drives the scanner's
depth negative and prevents a start index from being recorded, so
`findPlaceholders "\x7d\x7d{{a:b:1}}"` is empty and both processors leave the
string untouched (for every registry and option set). -/
theorem c10_unmatched_close_masks_tokens :
    findPlaceholders "\x7d\x7d{{a:b:1}}".toList = [] ∧
    (∀ (R : Registry) (options : ProcessOptions) (path : List (List Char)),
      processStringValue R options "\x7d\x7d{{a:b:1}}".toList path =
        .ok (.str "\x7d\x7d{{a:b:1}}".toList)) ∧
    (∀ (R : Registry) (options : ProcessOptions),
      textProcess R options "\x7d\x7d{{a:b:1}}".toList = .ok "\x7d\x7d{{a:b:1}}".toList) :=
  ⟨rfl, fun _ _ _ => rfl, fun _ _ => rfl⟩

/-- C1 counterexample: the leaf `{{a:b}}:{{a:c}}` consists of two tokens
separated by the literal character `:` — a token plus other literal
characters — yet its output has type number, because the leaf passes the
`isPlaceholder` regex and the fragments `{{n` and `m}}` produced by the
first pass reassemble into the pure token `{{n:m}}`, whose typed resolution
is then returned. -/
theorem c1_counterexample :
    "{{a:b}}".toList ++ ':' :: "{{a:c}}".toList = "{{a:b}}:{{a:c}}".toList ∧
    findPlaceholders "{{a:b}}:{{a:c}}".toList
      = ["{{a:b}}".toList, "{{a:c}}".toList] ∧
    processStringValue Rfrag optsNone "{{a:b}}:{{a:c}}".toList [] = .ok (.num 7) :=
  ⟨rfl, rfl, rfl⟩

/-- C1 (amended): type preservation.  (a) If a string leaf is, after
trimming, exactly one placeholder token (`isPlaceholder` holds and the
token find yields one entry), `processStringValue` returns exactly the
resolved value of that token, so an output of type T stays of type T; a
single-field document carries the leaf's value into the output object.
(b) If the leaf's trimmed form is not a single brace-delimited span
(`isPlaceholder` fails — there are literal characters outside the braces)
but the leaf contains tokens, any successful output value is a string.
A brace-delimited leaf holding several tokens plus literal characters can
still produce a typed value (see `c1_counterexample`). -/
theorem c1_type_preservation
    (R : Registry) (options : ProcessOptions) (path : List (List Char))
    (s : List Char) :
    (isPlaceholder s = true → (findPlaceholders s).length = 1 →
      processStringValue R options s path = resolvePlaceholderJ R s options path ∧
      (∀ k v, resolvePlaceholderJ R s options [k] = .ok v →
        processNode R options (.obj [(k, .str s)]) [] = .ok (.obj [(k, v)]))) ∧
    (isPlaceholder s = false → findPlaceholders s ≠ [] →
      ∀ v, processStringValue R options s path = .ok v → ∃ t, v = .str t) := by
  refine ⟨fun h1 h2 => ⟨processStringValue_pure R options path s h1 h2, ?_⟩,
    processStringValue_not_pure_str R options path s⟩
  intro k v hres
  exact processNode_singleton_obj R options k s v
    ((processStringValue_pure R options [k] s h1 h2).trans hres)

/-- Witness for `c1_type_preservation`: a pure number token becomes a JSON
number (also inside a document), and an interpolated leaf stays a string. -/
theorem c1_type_preservation_witness :
    processStringValue Rgen optsNone "{{gen:number:42}}".toList [] = .ok (.num 42) ∧
    processNode Rgen optsNone (.obj [("count".toList, .str "{{gen:number:42}}".toList)]) []
      = .ok (.obj [("count".toList, .num 42)]) ∧
    (∃ t, Jval.str "n: 42".toList = .str t) := by
  have h := c1_type_preservation Rgen optsNone [] "{{gen:number:42}}".toList
  have ha := h.1 rfl rfl
  refine ⟨ha.1.trans rfl, ha.2 "count".toList (.num 42) rfl, ?_⟩
  exact (c1_type_preservation Rgen optsNone [] "n: {{gen:number:42}}".toList).2 rfl
    (by decide) (.str "n: 42".toList) rfl

/-- A token whose module is filtered out resolves to the literal token. -/
theorem resolveBody_filtered (R : Registry) (options : ProcessOptions)
    (ph : List Char) (p : ParsedPlaceholder) (hp : parse ph = .ok p)
    (hfilt : (∃ inc, options.includePlugins = some inc ∧ p.module ∉ inc) ∨
             (∃ exc, options.excludePlugins = some exc ∧ p.module ∈ exc)) :
    resolveBody R ph options = .ok (.str ph) := by
  unfold resolveBody
  rw [hp]
  rcases hfilt with ⟨inc, hinc, hmod⟩ | ⟨exc, hexc, hmod⟩
  · rw [hinc]
    simp [hmod]
  · rcases hoi : options.includePlugins with _ | inc'
    · rw [hexc]
      simp [hmod]
    · by_cases hm : p.module ∈ inc'
      · rw [hexc]
        simp [hm, hmod]
      · simp [hm]

/-- C4: selective filtering.  When a token's module is absent from a set
include-list or present in a set exclude-list (in particular when it is in
both lists, where the exclude check still fires after the include check
passes), resolution in both processors succeeds with the literal token
string, and a pure such leaf stays verbatim in the JSON output. -/
theorem c4_selective_filtering
    (R : Registry) (options : ProcessOptions) (path : List (List Char))
    (ph : List Char) (p : ParsedPlaceholder) (hp : parse ph = .ok p)
    (hfilt : (∃ inc, options.includePlugins = some inc ∧ p.module ∉ inc) ∨
             (∃ exc, options.excludePlugins = some exc ∧ p.module ∈ exc)) :
    resolvePlaceholderJ R ph options path = .ok (.str ph) ∧
    resolvePlaceholderT R ph options = .ok ph ∧
    (isPlaceholder ph = true → (findPlaceholders ph).length = 1 →
      processStringValue R options ph path = .ok (.str ph)) := by
  have hbody := resolveBody_filtered R options ph p hp hfilt
  have hj : resolvePlaceholderJ R ph options path = .ok (.str ph) := by
    unfold resolvePlaceholderJ
    rw [hbody]
  refine ⟨hj, ?_, ?_⟩
  · unfold resolvePlaceholderT
    rw [hbody]
    rfl
  · intro h1 h2
    rw [processStringValue_pure R options path ph h1 h2]
    exact hj

/-- Witness for `c4_selective_filtering`: module `gen` present in both
lists is excluded; module `gen` absent from the include list is skipped. -/
theorem c4_selective_filtering_witness :
    resolvePlaceholderJ Rgen "{{gen:number:1}}".toList
      { includePlugins := some ["gen".toList], excludePlugins := some ["gen".toList] } []
      = .ok (.str "{{gen:number:1}}".toList) ∧
    resolvePlaceholderT Rgen "{{gen:number:1}}".toList
      { includePlugins := some ["time".toList] } = .ok "{{gen:number:1}}".toList ∧
    processStringValue Rgen { includePlugins := some ["time".toList] }
      "{{gen:number:1}}".toList [] = .ok (.str "{{gen:number:1}}".toList) := by
  have hboth := c4_selective_filtering Rgen
    { includePlugins := some ["gen".toList], excludePlugins := some ["gen".toList] } []
    "{{gen:number:1}}".toList
    { original := "{{gen:number:1}}".toList, module := "gen".toList,
      action := "number".toList, args := ["1".toList], transforms := [] }
    rfl (Or.inr ⟨["gen".toList], rfl, by decide⟩)
  have hinc := c4_selective_filtering Rgen
    { includePlugins := some ["time".toList] } []
    "{{gen:number:1}}".toList
    { original := "{{gen:number:1}}".toList, module := "gen".toList,
      action := "number".toList, args := ["1".toList], transforms := [] }
    rfl (Or.inl ⟨["time".toList], rfl, by decide⟩)
  exact ⟨hboth.1, hinc.2.1, hinc.2.2 rfl rfl⟩

theorem isSubstrOf_nil_pat (s : List Char) : isSubstrOf [] s = true := by
  cases s <;> simp [isSubstrOf, List.isPrefixOf]

theorem mem_substr_availOr (n : List Char) (names : List (List Char)) (h : n ∈ names) :
    isSubstrOf n (availOr names) = true := by
  have hsub := mem_substr_joinSep ", ".toList n names h
  unfold availOr
  by_cases hj : (joinSep ", ".toList names).isEmpty
  · rw [List.isEmpty_iff] at hj
    rw [hj] at hsub
    have : n = [] := by
      simpa [isSubstrOf, List.isEmpty_iff] using hsub
    subst this
    simp only [hj, List.isEmpty_nil, if_true]
    exact isSubstrOf_nil_pat _
  · simp only [hj, if_false]
    exact hsub

/-- The unknown-module failure of the shared resolution body. -/
theorem resolveBody_unknown (R : Registry) (options : ProcessOptions)
    (ph : List Char) (p : ParsedPlaceholder) (hp : parse ph = .ok p)
    (hinc : ∀ inc, options.includePlugins = some inc → p.module ∈ inc)
    (hexc : ∀ exc, options.excludePlugins = some exc → p.module ∉ exc)
    (hmiss : p.module ∉ pluginNames R) :
    resolveBody R ph options = .error
      ("Plugin '".toList ++ p.module ++ "' not found. Available plugins: ".toList
        ++ availOr (pluginNames R)) := by
  unfold resolveBody
  rw [hp]
  have hfind : R.plugins.find? (fun pl => pl.name = p.module) = none := by
    rw [List.find?_eq_none]
    intro pl hpl
    simp only [decide_eq_true_eq]
    intro hname
    exact hmiss (hname ▸ List.mem_map_of_mem (·.name) hpl)
  have hget : getPlugin R p.module = .error
      ("Plugin '".toList ++ p.module ++ "' not found. Available plugins: ".toList
        ++ availOr (pluginNames R)) := by
    unfold getPlugin
    rw [hfind]
  rcases hoi : options.includePlugins with _ | inc
  · rcases hoe : options.excludePlugins with _ | exc
    · simp [hget]
    · have := hexc exc hoe
      simp [this, hget]
  · have h1 := hinc inc hoi
    rcases hoe : options.excludePlugins with _ | exc
    · simp [h1, hget]
    · have h2 := hexc exc hoe
      simp [h1, h2, hget]

/-- C5: a token whose module is neither filtered out nor registered makes
the whole document processing fail, with a message that names the missing
module, lists every registered plugin name, and carries the token text and
the structural path. -/
theorem c5_unknown_module_failure
    (R : Registry) (options : ProcessOptions) (path : List (List Char))
    (ph : List Char) (p : ParsedPlaceholder) (hp : parse ph = .ok p)
    (hinc : ∀ inc, options.includePlugins = some inc → p.module ∈ inc)
    (hexc : ∀ exc, options.excludePlugins = some exc → p.module ∉ exc)
    (hmiss : p.module ∉ pluginNames R)
    (hpure1 : isPlaceholder ph = true) (hpure2 : (findPlaceholders ph).length = 1) :
    ∃ msg,
      processStringValue R options ph path = .error msg ∧
      (∀ k, processNode R options (.obj [(k, .str ph)]) [] =
        .error (wrapJsonErr ph [k] ("Plugin '".toList ++ p.module
          ++ "' not found. Available plugins: ".toList ++ availOr (pluginNames R)))) ∧
      isSubstrOf ("Plugin '".toList ++ p.module ++ "' not found".toList) msg = true ∧
      isSubstrOf ph msg = true ∧
      isSubstrOf (pathJoin path) msg = true ∧
      (∀ n ∈ pluginNames R, isSubstrOf n msg = true) := by
  have hbody := resolveBody_unknown R options ph p hp hinc hexc hmiss
  have hres : ∀ pth, resolvePlaceholderJ R ph options pth = .error
      (wrapJsonErr ph pth ("Plugin '".toList ++ p.module
        ++ "' not found. Available plugins: ".toList ++ availOr (pluginNames R))) := by
    intro pth
    unfold resolvePlaceholderJ
    rw [hbody]
  refine ⟨_, (processStringValue_pure R options path ph hpure1 hpure2).trans (hres path),
    ?_, ?_, ?_, ?_, ?_⟩
  · intro k
    exact processNode_singleton_obj_err R options k ph _
      ((processStringValue_pure R options [k] ph hpure1 hpure2).trans (hres [k]))
  · refine (isSubstrOf_iff _ _).2 ⟨"Failed to resolve placeholder \"".toList ++ ph
      ++ "\" at path \"".toList ++ pathJoin path ++ "\": ".toList,
      ". Available plugins: ".toList ++ availOr (pluginNames R), ?_⟩
    simp [wrapJsonErr]
  · exact (isSubstrOf_iff _ _).2 ⟨"Failed to resolve placeholder \"".toList,
      "\" at path \"".toList ++ pathJoin path ++ "\": ".toList ++ "Plugin '".toList
        ++ p.module ++ "' not found. Available plugins: ".toList ++ availOr (pluginNames R),
      by simp [wrapJsonErr]⟩
  · exact (isSubstrOf_iff _ _).2 ⟨"Failed to resolve placeholder \"".toList ++ ph
      ++ "\" at path \"".toList,
      "\": ".toList ++ "Plugin '".toList ++ p.module
        ++ "' not found. Available plugins: ".toList ++ availOr (pluginNames R),
      by simp [wrapJsonErr]⟩
  · intro n hn
    have hsub := mem_substr_availOr n (pluginNames R) hn
    rcases (isSubstrOf_iff _ _).1 hsub with ⟨a, b, hab⟩
    refine (isSubstrOf_iff _ _).2 ⟨"Failed to resolve placeholder \"".toList ++ ph
      ++ "\" at path \"".toList ++ pathJoin path ++ "\": ".toList ++ "Plugin '".toList
        ++ p.module ++ "' not found. Available plugins: ".toList ++ a, b, ?_⟩
    simp [wrapJsonErr, hab]

/-- Witness for `c5_unknown_module_failure`: `{{unknown:x:y}}` against a
registry holding only `gen`. -/
theorem c5_unknown_module_failure_witness :
    ∃ msg,
      processStringValue Rgen optsNone "{{unknown:x:y}}".toList ["a".toList] = .error msg ∧
      (∀ k, processNode Rgen optsNone (.obj [(k, .str "{{unknown:x:y}}".toList)]) [] =
        .error (wrapJsonErr "{{unknown:x:y}}".toList [k] ("Plugin '".toList
          ++ "unknown".toList ++ "' not found. Available plugins: ".toList
          ++ availOr (pluginNames Rgen)))) ∧
      isSubstrOf ("Plugin '".toList ++ "unknown".toList ++ "' not found".toList) msg = true ∧
      isSubstrOf "{{unknown:x:y}}".toList msg = true ∧
      isSubstrOf (pathJoin ["a".toList]) msg = true ∧
      (∀ n ∈ pluginNames Rgen, isSubstrOf n msg = true) := by
  have h := c5_unknown_module_failure Rgen optsNone ["a".toList] "{{unknown:x:y}}".toList
    { original := "{{unknown:x:y}}".toList, module := "unknown".toList,
      action := "x".toList, args := ["y".toList], transforms := [] }
    rfl (fun inc hinc => by cases hinc) (fun exc hexc => by cases hexc)
    (by decide) rfl rfl
  exact h

theorem isPlaceholder_trim (ph : List Char) : isPlaceholder (trim ph) = isPlaceholder ph := by
  unfold isPlaceholder
  rw [trim_idem]

/-- C3 counterexample: the claim asserts every `ParsedPlaceholder` has
non-empty (after trim) `module` and `action`, but `parse "{{::x}}"` succeeds
with both empty. -/
theorem c3_counterexample :
    parse "{{::x}}".toList = .ok
      { original := "{{::x}}".toList, module := [], action := [],
        args := ["x".toList], transforms := [] } := rfl

/-- C3 (amended): `parse` fails exactly when `isPlaceholder` rejects the
token or the depth-0 colon split of the main segment has fewer than two
parts; `module` and `action` of a successful parse are trimmed, but may be
empty. -/
theorem c3_parse_failure_condition (ph : List Char) :
    ((∃ e, parse ph = .error e) ↔
      (isPlaceholder ph = false ∨ (splitByColon (mainSegment (trim ph))).length < 2)) ∧
    (∀ p, parse ph = .ok p → trim p.module = p.module ∧ trim p.action = p.action) := by
  constructor
  · rcases hip : isPlaceholder ph with _ | _
    · have hipt : isPlaceholder (trim ph) = false := by rw [isPlaceholder_trim, hip]
      constructor
      · intro _
        exact Or.inl rfl
      · intro _
        refine ⟨"Invalid placeholder format: ".toList ++ ph, ?_⟩
        unfold parse
        simp only [hipt]
        rfl
    · have hipt : isPlaceholder (trim ph) = true := by rw [isPlaceholder_trim, hip]
      rcases hsc : splitByColon (mainSegment (trim ph)) with _ | ⟨m, _ | ⟨a, args⟩⟩
      · constructor
        · intro _
          exact Or.inr (by simp)
        · intro _
          refine ⟨"Invalid placeholder format. Expected at least module:action, got: ".toList
            ++ mainSegment (trim ph), ?_⟩
          unfold parse parseMainPart
          simp only [hipt, hsc, if_true]
      · constructor
        · intro _
          exact Or.inr (by simp)
        · intro _
          refine ⟨"Invalid placeholder format. Expected at least module:action, got: ".toList
            ++ mainSegment (trim ph), ?_⟩
          unfold parse parseMainPart
          simp only [hipt, hsc, if_true]
      · constructor
        · rintro ⟨e, he⟩
          unfold parse parseMainPart at he
          simp only [hipt, hsc, if_true] at he
          cases he
        · rintro (h | h)
          · simp at h
          · exfalso
            simp at h
            omega
  · intro p hp
    unfold parse at hp
    rcases hip : isPlaceholder (trim ph) with _ | _ <;> simp only [hip] at hp
    · cases hp
    · unfold parseMainPart at hp
      rcases hsc : splitByColon (mainSegment (trim ph)) with
          _ | ⟨m, _ | ⟨a, args⟩⟩ <;> simp only [hsc] at hp
      · cases hp
      · cases hp
      · injection hp with hp
        subst hp
        exact ⟨trim_idem m, trim_idem a⟩

/-- Witness for `c3_parse_failure_condition`: a successful and a failing
parse, checked through the equivalence. -/
theorem c3_parse_failure_condition_witness :
    (¬ ∃ e, parse "{{a:b}}".toList = .error e) ∧
    (∃ e, parse "{{nocolon}}".toList = .error e) ∧
    trim "a".toList = "a".toList := by
  refine ⟨?_, ?_, ((c3_parse_failure_condition "{{a:b}}".toList).2 _ rfl).1⟩
  · intro he
    have := (c3_parse_failure_condition "{{a:b}}".toList).1.1 he
    revert this
    decide
  · exact (c3_parse_failure_condition "{{nocolon}}".toList).1.2 (by decide)

/-- C7: in the main part, `\:` does not split and is un-escaped to a
literal colon: for segments of plain characters the escaped colon yields a
single segment with a literal colon, and the quoted token parses to exactly
two args `["0", "HH:mm:ss"]`. -/
theorem c7_escaped_colon :
    (∀ u v : List Char,
      (∀ c ∈ u, c ≠ ':' ∧ c ≠ '\\' ∧ c ≠ '{' ∧ c ≠ '}') →
      (∀ c ∈ v, c ≠ ':' ∧ c ≠ '\\' ∧ c ≠ '{' ∧ c ≠ '}') →
      splitByColon (u ++ '\\' :: ':' :: v) = [trim (u ++ ':' :: v)]) ∧
    parse "\x7b\x7btime:calc:0:HH\\:mm\\:ss\x7d\x7d".toList = .ok
      { original := "\x7b\x7btime:calc:0:HH\\:mm\\:ss\x7d\x7d".toList, module := "time".toList,
        action := "calc".toList, args := ["0".toList, "HH:mm:ss".toList],
        transforms := [] } := by
  constructor
  · intro u v hu hv
    have step1 : ∀ (u : List Char) (cur : List Char),
        (∀ c ∈ u, c ≠ ':' ∧ c ≠ '\\' ∧ c ≠ '{' ∧ c ≠ '}') →
        splitByColonAux (u ++ '\\' :: ':' :: v) 0 cur
          = splitByColonAux v 0 (cur ++ u ++ [':']) := by
      intro u
      induction u with
      | nil =>
        intro cur _
        simp [splitByColonAux]
      | cons c u' ih =>
        intro cur hcu
        have hc := hcu c (List.mem_cons_self c u')
        have hrest : ∀ x ∈ u', x ≠ ':' ∧ x ≠ '\\' ∧ x ≠ '{' ∧ x ≠ '}' :=
          fun x hx => hcu x (List.mem_cons_of_mem c hx)
        cases u' with
        | nil =>
          show splitByColonAux (c :: '\\' :: ':' :: v) 0 cur = _
          simp only [splitByColonAux]
          rw [if_neg (by simp [hc.2.2.1]), if_neg (by simp [hc.2.2.2]),
            if_neg (by simp [hc.2.1]), if_neg (by simp [hc.1])]
          simp [ih (cur ++ [c]) hrest]
        | cons c2 u'' =>
          show splitByColonAux (c :: (c2 :: u'') ++ '\\' :: ':' :: v) 0 cur = _
          rw [List.cons_append]
          simp only [splitByColonAux]
          rw [if_neg (by simp [hc.2.2.1]), if_neg (by simp [hc.2.2.2]),
            if_neg (by simp [hc.2.1]), if_neg (by simp [hc.1])]
          have := ih (cur ++ [c]) hrest
          simpa using this
    have step2 : ∀ (v : List Char) (cur : List Char),
        (∀ c ∈ v, c ≠ ':' ∧ c ≠ '\\' ∧ c ≠ '{' ∧ c ≠ '}') →
        splitByColonAux v 0 cur
          = if (cur ++ v).isEmpty then [] else [trim (cur ++ v)] := by
      intro v
      induction v with
      | nil =>
        intro cur _
        simp [splitByColonAux]
      | cons c v' ih =>
        intro cur hcv
        have hc := hcv c (List.mem_cons_self c v')
        have hrest : ∀ x ∈ v', x ≠ ':' ∧ x ≠ '\\' ∧ x ≠ '{' ∧ x ≠ '}' :=
          fun x hx => hcv x (List.mem_cons_of_mem c hx)
        cases v' with
        | nil =>
          simp only [splitByColonAux]
          rw [if_neg (by simp [hc.1])]
        | cons c2 v'' =>
          simp only [splitByColonAux]
          rw [if_neg (by simp [hc.2.2.1]), if_neg (by simp [hc.2.2.2]),
            if_neg (by simp [hc.2.1]), if_neg (by simp [hc.1])]
          have := ih (cur ++ [c]) hrest
          simpa using this
    unfold splitByColon
    rw [step1 u [] hu, step2 v (([] ++ u) ++ [':'])
      (fun c hc => hv c hc)]
    simp
  · rfl

/-- Witness for `c7_escaped_colon` at `u = "HH"`, `v = "mm"`. -/
theorem c7_escaped_colon_witness :
    splitByColon ("HH".toList ++ '\\' :: ':' :: "mm".toList) = [trim "HH:mm".toList] :=
  c7_escaped_colon.1 "HH".toList "mm".toList (by decide) (by decide)

/-! ## The bounded loop equals ten unconditioned passes -/

theorem kpasses_fix {α : Type} (stop : α → Bool) (p : α → Except (List Char) α)
    (st : α) (h : (if stop st then Except.ok st else p st) = .ok st) :
    ∀ n, kpasses stop p n st = .ok st := by
  intro n
  induction n with
  | zero => rfl
  | succ n ih =>
    unfold kpasses
    rcases hs : stop st with _ | _
    · rw [hs] at h
      simp only [if_false, Bool.false_eq_true] at h
      rw [h]
      exact ih
    · exact ih

theorem iterLoop_eq_kpasses {α : Type} (stop : α → Bool)
    (p : α → Except (List Char) α) (view : α → List Char)
    (H : ∀ st st', stop st = false → p st = .ok st' → view st' = view st →
      (if stop st' then Except.ok st' else p st') = .ok st') :
    ∀ (fuel : Nat) (st : α) (prev : List Char),
      (view st = prev → (if stop st then Except.ok st else p st) = .ok st) →
      iterLoop stop p view fuel st prev = kpasses stop p fuel st := by
  intro fuel
  induction fuel with
  | zero =>
    intro st prev _
    rfl
  | succ fuel ih =>
    intro st prev hprev
    unfold iterLoop
    by_cases hvp : view st = prev
    · rw [if_pos hvp, kpasses_fix stop p st (hprev hvp)]
    · rw [if_neg hvp]
      rcases hs : stop st with _ | _
      · simp only [Bool.false_eq_true, if_false]
        unfold kpasses
        rw [hs]
        simp only [Bool.false_eq_true, if_false]
        rcases hp : p st with e | st'
        · rfl
        · exact ih st' (view st) (H st st' hs hp)
      · simp only [if_true]
        exact (kpasses_fix stop p st (by rw [hs]; simp) _).symm

/-- The working string produced by `passFold` does not depend on the
incoming `lastResolvedValue`, and the outgoing one is either shared or the
respective incoming one. -/
theorem passFold_lastV_indep (R : Registry) (options : ProcessOptions)
    (path : List (List Char)) (isPure : Bool) (cur : List (List Char)) :
    ∀ (l : List (List Char)) (s : List Char) (v1 v2 : Jval),
      (∃ e, passFold R options path isPure cur l s v1 = .error e ∧
            passFold R options path isPure cur l s v2 = .error e) ∨
      (∃ S V1 V2, passFold R options path isPure cur l s v1 = .ok (S, V1) ∧
            passFold R options path isPure cur l s v2 = .ok (S, V2) ∧
            (V1 = V2 ∨ (V1 = v1 ∧ V2 = v2))) := by
  intro l
  induction l with
  | nil =>
    intro s v1 v2
    exact Or.inr ⟨s, v1, v2, rfl, rfl, Or.inr ⟨rfl, rfl⟩⟩
  | cons ph rest ih =>
    intro s v1 v2
    unfold passFold
    rcases hco : cur.any (fun other => other ≠ ph && isSubstrOf other ph) with _ | _
    · simp only [Bool.false_eq_true, if_false]
      rcases hres : resolvePlaceholderJ R ph options path with e | v
      · exact Or.inl ⟨e, rfl, rfl⟩
      · rcases hcond : (isPure && cur.length = 1 : Bool) with _ | _
        · simp only [Bool.false_eq_true, if_false]
          exact ih (replaceAllStr s ph (jsToString v)) v1 v2
        · simp only [if_true]
          rcases ih (replaceAllStr s ph (jsToString v)) v v with
              ⟨e, h1, h2⟩ | ⟨S, V1, V2, h1, h2, hV⟩
          · exact Or.inl ⟨e, h1, h2⟩
          · refine Or.inr ⟨S, V1, V2, h1, h2, Or.inl ?_⟩
            rcases hV with h | ⟨ha, hb⟩
            · exact h
            · rw [ha, hb]
    · simp only [if_true]
      exact ih s v1 v2

theorem jsonPass_H (R : Registry) (options : ProcessOptions) (path : List (List Char))
    (isPure : Bool) :
    ∀ st st', jsonStop st = false →
      jsonPass R options path isPure st = .ok st' → st'.1 = st.1 →
      (if jsonStop st' then Except.ok st' else jsonPass R options path isPure st')
        = .ok st' := by
  rintro ⟨s, v⟩ ⟨s', v'⟩ hstop hp hview
  simp only at hview
  subst hview
  have hstop' : jsonStop (s', v') = false := hstop
  rw [hstop']
  simp only [Bool.false_eq_true, if_false]
  have hind := passFold_lastV_indep R options path isPure (findPlaceholders s')
    (sortPlaceholdersByPosition s' (findPlaceholders s')) s' v v'
  unfold jsonPass at hp ⊢
  simp only at hp ⊢
  rcases hind with ⟨e, h1, h2⟩ | ⟨S, V1, V2, h1, h2, hV⟩
  · rw [hp] at h1
    cases h1
  · rw [hp] at h1
    injection h1 with h1
    have hS : S = s' := (congrArg Prod.fst h1).symm
    have hV1 : V1 = v' := (congrArg Prod.snd h1).symm
    subst hS hV1
    rw [h2]
    rcases hV with h | ⟨ha, hb⟩
    · rw [← h]
    · rw [hb]

/-- The JSON-mode loop run by `processStringValue` equals ten Kleisli
passes. -/
theorem jsonLoop_eq_ten_passes (R : Registry) (options : ProcessOptions)
    (path : List (List Char)) (isPure : Bool) (value : List Char) (v0 : Jval) :
    iterLoop jsonStop (jsonPass R options path isPure) Prod.fst 10 (value, v0) []
      = kpasses jsonStop (jsonPass R options path isPure) 10 (value, v0) := by
  apply iterLoop_eq_kpasses jsonStop (jsonPass R options path isPure) Prod.fst
    (jsonPass_H R options path isPure)
  intro hview
  have hval : value = [] := hview
  subst hval
  rfl

/-- `TextProcessor.process` equals ten Kleisli passes of its loop body. -/
theorem textProcess_eq_ten_passes (R : Registry) (options : ProcessOptions)
    (text : List Char) :
    textProcess R options text = kpasses textStop (textPass R options) 10 text := by
  unfold textProcess
  apply iterLoop_eq_kpasses textStop (textPass R options) id
  · intro st st' hstop hp hview
    simp only [id] at hview
    subst hview
    rw [hstop]
    simp only [Bool.false_eq_true, if_false]
    exact hp
  · intro hview
    have hval : text = [] := hview
    subst hval
    rfl

/-- C6: the bounded fixed-point loop of both processors (10-pass cap, break
on an empty token set, stop on fixed point) computes exactly ten Kleisli
iterations of its guarded pass body — in particular it always terminates
after at most ten passes — and exceeding the cap is not an error: the
oscillating model plugin caps out and the best-effort string is returned
successfully. -/
theorem c6_bounded_fixed_point :
    (∀ (R : Registry) (options : ProcessOptions) (path : List (List Char))
        (isPure : Bool) (value : List Char) (v0 : Jval),
      iterLoop jsonStop (jsonPass R options path isPure) Prod.fst 10 (value, v0) []
        = kpasses jsonStop (jsonPass R options path isPure) 10 (value, v0)) ∧
    (∀ (R : Registry) (options : ProcessOptions) (text : List Char),
      textProcess R options text = kpasses textStop (textPass R options) 10 text) ∧
    textProcess Rcyc optsNone "{{a:b:1}}".toList = .ok "{{a:b:1}}".toList :=
  ⟨jsonLoop_eq_ten_passes, textProcess_eq_ten_passes, rfl⟩

/-- C2: nested innermost-first resolution.  A pass never resolves a token
that contains another currently-found token (first conjunct).  On the
quoted nested token the first pass resolves only the inner token, textually
producing the flat form; the full run then equals resolving the flat form
directly. -/
theorem c2_nested_innermost_first :
    (∀ (R : Registry) (options : ProcessOptions) (path : List (List Char))
        (isPure : Bool) (cur rest : List (List Char)) (ph s : List Char) (v : Jval),
      (∃ other ∈ cur, other ≠ ph ∧ isSubstrOf other ph = true) →
      passFold R options path isPure cur (ph :: rest) s v
        = passFold R options path isPure cur rest s v) ∧
    jsonPass Rgen optsNone [] true
        ("{{time:format:{{gen:number:1710508545}}:dd.MM.yyyy}}".toList, Jval.null)
      = .ok ("{{time:format:1710508545:dd.MM.yyyy}}".toList, Jval.null) ∧
    processStringValue Rgen optsNone
        "{{time:format:{{gen:number:1710508545}}:dd.MM.yyyy}}".toList []
      = resolvePlaceholderJ Rgen "{{time:format:1710508545:dd.MM.yyyy}}".toList
          optsNone [] ∧
    resolvePlaceholderJ Rgen "{{time:format:1710508545:dd.MM.yyyy}}".toList optsNone []
      = .ok (.str "T(1710508545,dd.MM.yyyy)".toList) := by
  refine ⟨?_, rfl, rfl, rfl⟩
  intro R options path isPure cur rest ph s v hex
  have hany : cur.any (fun other => other ≠ ph && isSubstrOf other ph) = true := by
    rw [List.any_eq_true]
    rcases hex with ⟨other, hmem, hne, hsub⟩
    exact ⟨other, hmem, by simp [hne, hsub]⟩
  conv_lhs => rw [passFold.eq_def]
  simp only [hany, if_true]

/-- Witness for `c2_nested_innermost_first`: the outer nested token is
skipped by the pass fold because the inner token is a substring of it. -/
theorem c2_nested_innermost_first_witness :
    passFold Rgen optsNone [] true
      ["{{time:format:{{gen:number:1710508545}}:dd.MM.yyyy}}".toList,
        "{{gen:number:1710508545}}".toList]
      ["{{time:format:{{gen:number:1710508545}}:dd.MM.yyyy}}".toList]
      "{{time:format:{{gen:number:1710508545}}:dd.MM.yyyy}}".toList Jval.null
      = .ok ("{{time:format:{{gen:number:1710508545}}:dd.MM.yyyy}}".toList, Jval.null) := by
  rw [c2_nested_innermost_first.1 Rgen optsNone [] true
    ["{{time:format:{{gen:number:1710508545}}:dd.MM.yyyy}}".toList,
      "{{gen:number:1710508545}}".toList]
    [] "{{time:format:{{gen:number:1710508545}}:dd.MM.yyyy}}".toList
    "{{time:format:{{gen:number:1710508545}}:dd.MM.yyyy}}".toList Jval.null
    ⟨"{{gen:number:1710508545}}".toList, by decide, by decide, by decide⟩]
  rfl

/-- C8 counterexample: with eleven occurrences of one resolvable token the
ten-pass loop replaces only ten of them, so the output still contains the
token — the claimed "every occurrence ends up replaced" is false.  The
final conjunct shows the leftover token is itself resolvable. -/
theorem c8_counterexample :
    textProcess Rconst optsNone
        ("{{a:b:1}}{{a:b:1}}{{a:b:1}}{{a:b:1}}{{a:b:1}}{{a:b:1}}{{a:b:1}}{{a:b:1}}"
          ++ "{{a:b:1}}{{a:b:1}}{{a:b:1}}").toList
      = .ok "xxxxxxxxxx{{a:b:1}}".toList ∧
    isSubstrOf "{{a:b:1}}".toList "xxxxxxxxxx{{a:b:1}}".toList = true ∧
    resolvePlaceholderT Rconst "{{a:b:1}}".toList optsNone = .ok "x".toList :=
  ⟨rfl, by decide, rfl⟩

/-- C8 (amended): text mode runs the same ten-pass fixed-point loop as JSON
mode, but each pass replaces only the **first** literal occurrence of each
resolved token (`String.prototype.replace`); duplicate occurrences are
replaced by later passes, so a token occurring at most ten times is fully
replaced, while more occurrences can survive the pass cap. -/
theorem c8_text_first_occurrence :
    (∀ (R : Registry) (options : ProcessOptions) (text : List Char),
      textProcess R options text = kpasses textStop (textPass R options) 10 text) ∧
    textPass Rconst optsNone "{{a:b:1}}{{a:b:1}}".toList = .ok "x{{a:b:1}}".toList ∧
    textProcess Rconst optsNone "{{a:b:1}}{{a:b:1}}".toList = .ok "xx".toList ∧
    textProcess Rconst optsNone
        ("{{a:b:1}}{{a:b:1}}{{a:b:1}}{{a:b:1}}{{a:b:1}}{{a:b:1}}{{a:b:1}}{{a:b:1}}"
          ++ "{{a:b:1}}{{a:b:1}}").toList
      = .ok "xxxxxxxxxx".toList :=
  ⟨textProcess_eq_ten_passes, rfl, rfl, rfl⟩

/-! ## Identity on token-free documents -/

theorem hasPair_tail (c a : Char) (xs : List Char) (h : hasPair c (a :: xs) = false) :
    hasPair c xs = false := by
  cases xs with
  | nil => rfl
  | cons b rest =>
    unfold hasPair at h
    rcases Bool.or_eq_false_iff.1 h with ⟨_, h2⟩
    exact h2

theorem spanLoop_no_open (content : List Char) :
    ∀ (rem : List Char) (i : Nat) (depth : Int) (start : Option Nat),
      start = none → hasPair '{' rem = false →
      spanLoop content rem i depth start = [] := by
  intro rem i depth start
  induction rem, i, depth, start using spanLoop.induct content with
  | case1 => intro _ _; rfl
  | case2 => intro _ _; rfl
  | case3 c c2 rest i depth start h ih =>
    intro hst hpair
    exfalso
    unfold hasPair at hpair
    rcases Bool.or_eq_false_iff.1 hpair with ⟨h1, _⟩
    simp only [Bool.and_eq_false_iff, decide_eq_false_iff_not] at h1
    rcases h1 with h1 | h1
    · exact h1 h.1
    · exact h1 h.2
  | case4 c c2 rest i depth s h h2 h3 ih =>
    intro hst _
    cases hst
  | case5 c c2 rest i depth s h h2 h3 ih =>
    intro hst _
    cases hst
  | case6 c c2 rest i depth h h2 ih =>
    intro hst hpair
    rw [spanLoop.eq_def]
    simp only [if_neg h]
    rw [if_pos h2]
    exact ih rfl (hasPair_tail _ _ _ (hasPair_tail _ _ _ hpair))
  | case7 c c2 rest i depth start h h2 ih =>
    intro hst hpair
    rw [spanLoop.eq_def]
    simp only [if_neg h, if_neg h2]
    exact ih hst (hasPair_tail _ _ _ hpair)

theorem findPlaceholders_no_open (s : List Char) (h : hasPair '{' s = false) :
    findPlaceholders s = [] := by
  have hts : topSpans s = [] := spanLoop_no_open s s 0 0 none rfl h
  unfold findPlaceholders emitAll
  rw [hts]
  rfl

theorem processStringValue_token_free (R : Registry) (options : ProcessOptions)
    (s : List Char) (path : List (List Char)) (h : hasPair '{' s = false) :
    processStringValue R options s path = .ok (.str s) := by
  unfold processStringValue
  simp only [findPlaceholders_no_open s h]
  rfl

mutual
/-- Token-free nodes pass through `processNode` unchanged. -/
def processNode_token_free (R : Registry) (options : ProcessOptions) :
    (doc : Jval) → (path : List (List Char)) → jvalTokenFree doc = true →
      processNode R options doc path = .ok doc
  | .null, _, _ => rfl
  | .bool _, _, _ => rfl
  | .num _, _, _ => rfl
  | .str s, path, h => by
    have hs : hasPair '{' s = false := by
      unfold jvalTokenFree at h
      rcases Bool.and_eq_true_iff.1 h with ⟨h1, _⟩
      simpa using h1
    exact processStringValue_token_free R options s path hs
  | .arr l, path, h => by
    have hl : jvalListTokenFree l = true := by
      unfold jvalTokenFree at h
      exact h
    unfold processNode
    rw [processNodeArr_token_free R options l path 0 hl]
  | .obj fs, path, h => by
    have hf : jvalFieldsTokenFree fs = true := by
      unfold jvalTokenFree at h
      exact h
    unfold processNode
    rw [processNodeObj_token_free R options fs path hf]

def processNodeArr_token_free (R : Registry) (options : ProcessOptions) :
    (l : List Jval) → (path : List (List Char)) → (i : Nat) →
      jvalListTokenFree l = true → processNodeArr R options l path i = .ok l
  | [], _, _, _ => rfl
  | v :: rest, path, i, h => by
    have h1 : jvalTokenFree v = true := by
      unfold jvalListTokenFree at h
      exact (Bool.and_eq_true_iff.1 h).1
    have h2 : jvalListTokenFree rest = true := by
      unfold jvalListTokenFree at h
      exact (Bool.and_eq_true_iff.1 h).2
    unfold processNodeArr
    rw [processNode_token_free R options v (path ++ [idxPath i]) h1,
      processNodeArr_token_free R options rest path (i + 1) h2]

def processNodeObj_token_free (R : Registry) (options : ProcessOptions) :
    (fs : List (List Char × Jval)) → (path : List (List Char)) →
      jvalFieldsTokenFree fs = true → processNodeObj R options fs path = .ok fs
  | [], _, _ => rfl
  | (k, v) :: rest, path, h => by
    have h1 : jvalTokenFree v = true := by
      unfold jvalFieldsTokenFree at h
      exact (Bool.and_eq_true_iff.1 (Bool.and_eq_true_iff.1 h).1).2
    have h2 : jvalFieldsTokenFree rest = true := by
      unfold jvalFieldsTokenFree at h
      exact (Bool.and_eq_true_iff.1 h).2
    unfold processNodeObj
    rw [processNode_token_free R options v (path ++ [k]) h1,
      processNodeObj_token_free R options rest path h2]
end

/-- C9: JSON-mode substitution is the identity on documents containing no
`{{` or `}}` sequence: the processed tree is structurally equal to the
input tree, node for node. -/
theorem c9_identity_on_token_free (R : Registry) (options : ProcessOptions)
    (doc : Jval) (path : List (List Char)) (h : jvalTokenFree doc = true) :
    processNode R options doc path = .ok doc ∧ jsonProcess R options doc = .ok doc :=
  ⟨processNode_token_free R options doc path h,
    processNode_token_free R options doc [] h⟩

/-- Witness for `c9_identity_on_token_free` on a small mixed document. -/
theorem c9_identity_on_token_free_witness :
    jsonProcess Rgen optsNone
        (.obj [("a".toList, .str "plain text".toList),
               ("b".toList, .arr [.num 3, .null, .bool true, .str "x\x7dy\x7bz".toList])])
      = .ok (.obj [("a".toList, .str "plain text".toList),
               ("b".toList, .arr [.num 3, .null, .bool true, .str "x\x7dy\x7bz".toList])]) :=
  (c9_identity_on_token_free Rgen optsNone
    (.obj [("a".toList, .str "plain text".toList),
           ("b".toList, .arr [.num 3, .null, .bool true, .str "x\x7dy\x7bz".toList])])
    [] (by decide)).2

end Placeholder

